import Mathlib

/-!
# Verification of the md2pdf document rendering engine

Shallow embedding of the rendering core of the md2pdf repository:
the Unicode-aware text/icon segmentation (`emoji.go`), the icon
handling / sanitization / checkbox normalization and the per-node-kind
handlers with their container-state stack (`processor_test.go`, which
holds the processor sources).

Strings are modelled as lists of Unicode code points (`Str`), matching
the `[]rune` conversions the Go code performs.  Geometry uses `ℚ` for
the `float64` quantities; none of the verified claims depends on
floating-point rounding.
-/

/-- A Go string / `[]rune` value, as its sequence of code points. -/
abbrev Str := List Nat

/-- Convenience conversion from a Lean string literal to `Str`. -/
def ofString (s : String) : Str := s.data.map Char.toNat

/-- The `iconBadges` map of `processor_test.go`: emoji code point to
semantic text replacement, with exactly the entries of the source. -/
def iconBadges : List (Nat × Str) := [
  (0x2705, ofString "[correct]"),
  (0x274C, ofString "[incorrect]"),
  (0x26A0, ofString "[warning]"),
  (0x2139, ofString "[info]"),
  (0x1F6D1, ofString "[stop]"),
  (0x2714, ofString "[check]"),
  (0x1F680, ofString "[launch]"),
  (0x23F1, ofString "[timer]"),
  (0x1F4CA, ofString "[analytics]"),
  (0x1F4C8, ofString "[increase]"),
  (0x1F4C9, ofString "[decrease]"),
  (0x1F50D, ofString "[search]"),
  (0x1F527, ofString "[fix]"),
  (0x1F6E0, ofString "[tools]"),
  (0x1F504, ofString "[refresh]"),
  (0x1F4B0, ofString "[money]"),
  (0x1F4A1, ofString "[idea]"),
  (0x1F3AF, ofString "[target]"),
  (0x1F381, ofString "[bonus]"),
  (0x1F3C6, ofString "[achievement]"),
  (0x1F4E7, ofString "[email]"),
  (0x1F4DE, ofString "[phone]"),
  (0x1F4C5, ofString "[calendar]"),
  (0x1F4DD, ofString "[note]"),
  (0x1F4CC, ofString "[pin]"),
  (0x1F517, ofString "[link]"),
  (0x27A1, ofString "[next]"),
  (0x2B05, ofString "[previous]"),
  (0x2B06, ofString "[up]"),
  (0x2B07, ofString "[down]"),
  (0x2197, ofString "[up-right]"),
  (0x2198, ofString "[down-right]"),
  (0x1F389, ofString "[celebration]"),
  (0x1F44D, ofString "[like]"),
  (0x1F44E, ofString "[dislike]"),
  (0x1F600, ofString "[happy]"),
  (0x1F622, ofString "[sad]"),
  (0x1F4AA, ofString "[strong]"),
  (0x1F44C, ofString "[ok]")]

/-- Membership test in the `iconBadges` map (Go `_, found := iconBadges[ch]`). -/
def isBadge (r : Nat) : Bool := (iconBadges.lookup r).isSome

/-- Variation selector test `ch >= 0xFE00 && ch <= 0xFE0F`. -/
def isVS (r : Nat) : Bool := 0xFE00 ≤ r && r ≤ 0xFE0F

/-- The `IconMode` configuration constants of the renderer. -/
inductive IconMode where
  | embed
  | text
  | strip
  | keep
deriving DecidableEq, Repr

/-- Output of `handleIcons` for a badge-mapped code point, per mode
(the four `case` arms of the first switch in `handleIcons`). -/
def iconOut (m : IconMode) (ch : Nat) (badge : Str) : Str :=
  match m with
  | .embed => [ch]
  | .text => badge
  | .strip => [32]
  | .keep => [ch]

/-- Output of `handleIcons` for an unknown code point above 65535, per
mode (the four `case` arms of the second switch in `handleIcons`). -/
def highOut (m : IconMode) (ch : Nat) : Str :=
  match m with
  | .embed => [ch]
  | .text => ofString "[icon]"
  | .strip => [32]
  | .keep => [ch]

/-- `handleIcons` of `processor_test.go`: one pass over the runes of the
input; variation selectors become spaces; badge-mapped code points and
code points above 65535 are replaced per the icon-handling mode, and a
variation selector immediately following such a code point is consumed
and replaced by a space. -/
def handleIcons (m : IconMode) : Str → Str
  | [] => []
  | ch :: rest =>
    if isVS ch then 32 :: handleIcons m rest
    else
      match iconBadges.lookup ch with
      | some badge =>
        iconOut m ch badge ++
          (match rest with
           | [] => []
           | v :: rest2 =>
             if isVS v then 32 :: handleIcons m rest2
             else handleIcons m (v :: rest2))
      | none =>
        if 65535 < ch then
          highOut m ch ++
            (match rest with
             | [] => []
             | v :: rest2 =>
               if isVS v then 32 :: handleIcons m rest2
               else handleIcons m (v :: rest2))
        else ch :: handleIcons m rest

/-- `sanitizeText` of `processor_test.go`: under `IconModeEmbed` the
input passes through; otherwise every code point above 65535 becomes a
single space. -/
def sanitizeText (m : IconMode) (s : Str) : Str :=
  if m = .embed then s
  else s.map (fun r => if 65535 < r then 32 else r)

/-- `isEmojiRune` of `emoji.go`: badge-table membership or one of the
symbol/pictograph Unicode ranges. -/
def isEmojiRune (r : Nat) : Bool :=
  if isBadge r then true
  else if 0x2190 ≤ r && r ≤ 0x21FF then true
  else if 0x23E9 ≤ r && r ≤ 0x23FF then true
  else if 0x2600 ≤ r && r ≤ 0x26FF then true
  else if 0x2700 ≤ r && r ≤ 0x27BF then true
  else if 0x2B00 ≤ r && r ≤ 0x2BFF then true
  else 0x1F000 ≤ r

/-- A grapheme cluster, as produced by the external `uniseg` iterator:
a non-restartable sequence of code points. -/
abbrev Cluster := Str

/-- `isEmojiGrapheme` of `emoji.go`: empty clusters are not emoji; a
cluster containing the combining enclosing keycap U+20E3 is; otherwise
the leading code point decides. -/
def isEmojiGrapheme (runes : Cluster) : Bool :=
  match runes with
  | [] => false
  | r :: rs =>
    if (r :: rs).any (fun c => c == 0x20E3) then true
    else isEmojiRune r

/-- `TextSegment` of `emoji.go`. For a segment built from grapheme
clusters, `Content` (the accumulated string) and `Runes` (the
accumulated rune slice) hold the same code-point sequence. -/
structure TextSegment where
  IsEmoji : Bool
  Content : Str
  Runes : Str
deriving DecidableEq, Repr

/-- The loop body of `segmentTextWithEmoji`: walk the grapheme clusters,
carrying the pending plain-text accumulator (`currentText` /
`currentRunes`, which hold the same sequence, here one accumulator). -/
def segGo : List Cluster → Str → List TextSegment
  | [], acc => if acc.isEmpty then [] else [⟨false, acc, acc⟩]
  | c :: rest, acc =>
    if isEmojiGrapheme c then
      (if acc.isEmpty then [] else [⟨false, acc, acc⟩]) ++
        ⟨true, c, c⟩ :: segGo rest []
    else segGo rest (acc ++ c)

/-- `segmentTextWithEmoji` of `emoji.go`.  The grapheme-cluster
iteration itself is performed by the external `uniseg` package, so the
input is taken as the cluster sequence that iterator yields (whose
concatenation is the input string). -/
def segmentTextWithEmoji (clusters : List Cluster) : List TextSegment :=
  segGo clusters []

/-- Boolean test that `q` starts the list `s`. -/
def leadsB : Str → Str → Bool
  | [], _ => true
  | _ :: _, [] => false
  | a :: q, c :: s => a == c && leadsB q s

/-- Non-overlapping left-to-right replacement with a nonempty pattern
`p0 :: ptail`, as performed by Go `strings.ReplaceAll` (the patterns in
scope are ASCII, so byte-level and rune-level replacement coincide). -/
def replaceAllGo (p0 : Nat) (ptail rep : Str) : Str → Str
  | [] => []
  | c :: rest =>
    if leadsB (p0 :: ptail) (c :: rest) then
      rep ++ replaceAllGo p0 ptail rep (rest.drop ptail.length)
    else c :: replaceAllGo p0 ptail rep rest
termination_by s => s.length
decreasing_by
  · simp only [List.length_drop, List.length_cons]
    omega
  · simp

/-- Go `strings.ReplaceAll` (identity for the empty pattern is never
exercised: all patterns in scope are nonempty). -/
def replaceAll (pat rep s : Str) : Str :=
  match pat with
  | [] => s
  | p :: pt => replaceAllGo p pt rep s

/-- The pattern `"[ ]"`. -/
def patUnchecked : Str := [91, 32, 93]
/-- The pattern `"[x]"`. -/
def patCheckedLower : Str := [91, 120, 93]
/-- The pattern `"[X]"`. -/
def patCheckedUpper : Str := [91, 88, 93]
/-- The unchecked ballot box symbol `"☐"` (U+2610). -/
def symUnchecked : Str := [0x2610]
/-- The checked ballot box symbol `"☑"` (U+2611). -/
def symChecked : Str := [0x2611]

/-- The inline checkbox-marker substitution performed by `processText`:
`"[ ]" → "☐"`, then `"[x]" → "☑"`, then `"[X]" → "☑"`, in the source's
order. -/
def fixCheckboxes (s : Str) : Str :=
  replaceAll patCheckedUpper symChecked
    (replaceAll patCheckedLower symChecked
      (replaceAll patUnchecked symUnchecked s))

/-- `strings.ReplaceAll(s, "\n", " ")`: newline folding in `processText`. -/
def foldNewlines (s : Str) : Str := replaceAll [10] [32] s

example : handleIcons .strip [0x1F680, 65] = [32, 65] := by decide
example : handleIcons .keep [0x2705, 0xFE0F, 66] = [0x2705, 32, 66] := by decide
example : sanitizeText .keep [0x1F680, 65] = [32, 65] := by decide
example : sanitizeText .embed [0x1F680, 65] = [0x1F680, 65] := by decide
example : fixCheckboxes (ofString "a[x]b") = [97, 0x2611, 98] := by
  simp [fixCheckboxes, replaceAll, replaceAllGo, ofString, patUnchecked,
    patCheckedLower, patCheckedUpper, symChecked, symUnchecked, leadsB]
example :
    segmentTextWithEmoji [[97], [0x31, 0xFE0F, 0x20E3], [98]] =
      [⟨false, [97], [97]⟩, ⟨true, [0x31, 0xFE0F, 0x20E3], [0x31, 0xFE0F, 0x20E3]⟩,
        ⟨false, [98], [98]⟩] := by decide

/-- Decimal digits of a natural number, as code points. -/
def natToStr (n : Nat) : Str := (Nat.toDigits 10 n).map Char.toNat

/-- Go `fmt.Sprintf("%v", i)` for an `int`. -/
def intToStr (i : Int) : Str :=
  match i with
  | .ofNat n => natToStr n
  | .negSucc n => 45 :: natToStr (n + 1)

/-- The list kinds of the renderer (`notlist`, `unordered`, `ordered`,
`definition` constants of the processor). -/
inductive ListKind where
  | notlist
  | unordered
  | ordered
  | definition
deriving DecidableEq, Repr

/-- A text style (`Styler`): the fields the verified handlers read. -/
structure Style where
  size : ℚ
  spacing : ℚ
  styleStr : Str
deriving DecidableEq, Repr

/-- `containerState` of the renderer: one frame of the container stack.
Field defaults are the Go zero values used by the handlers' composite
literals. -/
structure ContainerState where
  textStyle : Style
  itemNumber : Int := 0
  listkind : ListKind := .notlist
  firstParagraph : Bool := false
  isHeader : Bool := false
  leftMargin : ℚ := 0
  contentLeftMargin : ℚ := 0
  orderedCounterBackup : Int := 0
  destination : Str := []
  cellInnerString : Str := []
  cellInnerStringStyle : Option Style := none
deriving DecidableEq, Repr

/-- The zero-valued frame (Go zero value of `containerState`). -/
def defaultFrame : ContainerState := { textStyle := ⟨0, 0, []⟩ }

/-- The abstract output canvas (the fpdf calls the handlers make):
cursor abscissa, left margin, current font style, line width, the log
of emitted text draws (`Write` / `CellFormat`), and the string-width
metric `GetStringWidth` of the loaded font. -/
structure Canvas where
  x : ℚ
  leftMargin : ℚ
  font : Style
  lineWidth : ℚ
  written : List (ℚ × Str)
  widthFn : Str → ℚ

/-- `Pdf.Write(lh, s)`: logs the draw; writing `"\n"` performs a line
feed (cursor returns to the left margin), otherwise the cursor advances
by the measured width of `s`. -/
def Canvas.write (c : Canvas) (lh : ℚ) (s : Str) : Canvas :=
  { c with written := c.written ++ [(lh, s)],
           x := if s = [10] then c.leftMargin else c.x + c.widthFn s }

/-- `Pdf.SetLeftMargin`. -/
def Canvas.setLeftMargin (c : Canvas) (m : ℚ) : Canvas := { c with leftMargin := m }

/-- `Pdf.SetX`. -/
def Canvas.setX (c : Canvas) (v : ℚ) : Canvas := { c with x := v }

/-- `Pdf.Ln(-1)`: a line feed with no text drawn. -/
def Canvas.lnBreak (c : Canvas) : Canvas := { c with x := c.leftMargin }

/-- `Pdf.CellFormat`: logs the cell draw and advances the cursor by the
cell width. -/
def Canvas.cellFormat (c : Canvas) (w h : ℚ) (s : Str) : Canvas :=
  { c with written := c.written ++ [(h, s)], x := c.x + w }

/-- The `PdfRenderer` state: container stack (top at the head), the
ordered-list counter, the canvas, the style presets, and the
configuration and table globals the handlers read (`incell`, `fill`,
`cellwidths`, `curdatacell` are package globals in the source; the
`ColumnWidths` map is keyed here by a table identity number). -/
structure Renderer where
  cs : List ContainerState
  orderedListCounter : Int
  pdf : Canvas
  normal : Style
  h1 : Style
  h2 : Style
  h3 : Style
  h4 : Style
  h5 : Style
  h6 : Style
  blockquoteStyle : Style
  linkStyle : Style
  thStyle : Style
  tbStyle : Style
  indentValue : ℚ
  em : ℚ
  keepNumbering : Bool
  anchorLinks : Bool
  inputBaseURL : Str
  iconHandling : IconMode
  needBlockquoteStyleUpdate : Bool
  horizontalRuleNewPage : Bool
  incell : Bool
  fill : Bool
  cellwidths : List ℚ
  curdatacell : Nat
  columnWidths : Nat → List ℚ

/-- Modelled from the spec: container-stack `push` (§4.2) — the stack
type and its operations live in a source file not included under src/;
per the spec, push places a fully built frame on top of the stack.  The
margin/counter bookkeeping the spec attributes to `pop` is performed
explicitly by the handlers present in the sources, so `pop` here is
plain removal of the top frame. -/
def Renderer.push (r : Renderer) (f : ContainerState) : Renderer :=
  { r with cs := f :: r.cs }

/-- Modelled from the spec: container-stack `pop` (§4.2); see
`Renderer.push`. -/
def Renderer.pop (r : Renderer) : Renderer := { r with cs := r.cs.tail }

/-- Modelled from the spec: container-stack `peek` (§4.2) — read-only
access to the top frame (the root sentinel guarantees nonemptiness). -/
def Renderer.peek (r : Renderer) : ContainerState := r.cs.headD defaultFrame

/-- `setStyler`: select font/size/color on the canvas for a style. -/
def Renderer.setStyler (r : Renderer) (st : Style) : Renderer :=
  { r with pdf := { r.pdf with font := st } }

/-- Modelled from the spec: `cr()` (not under src/) — an explicit line
feed at the current top style's line height (§6 output contract). -/
def Renderer.cr (r : Renderer) : Renderer :=
  { r with pdf := r.pdf.write (r.peek.textStyle.size + r.peek.textStyle.spacing) [10] }

/-- Replace the top frame of the stack, as the Go handlers do through
the pointer returned by `peek`. -/
def Renderer.updTop (r : Renderer) (g : ContainerState → ContainerState) : Renderer :=
  { r with cs := match r.cs with
                 | [] => []
                 | f :: t => g f :: t }

/-- `resetListCounter` of `processor_test.go`. -/
def Renderer.resetListCounter (r : Renderer) : Renderer :=
  if !r.keepNumbering then { r with orderedListCounter := 0 } else r

/-- Modelled from the spec: `writeSegmented` (not under src/) — writes
a text run at the style's line height (§6 output contract; the icon
segmentation applied inside it does not change the emitted text). -/
def Renderer.writeSegmented (r : Renderer) (st : Style) (s : Str) : Renderer :=
  { r with pdf := r.pdf.write (st.size + st.spacing) s }

/-- Modelled from the spec: `writeLink` (not under src/) — writes link
text and records a link annotation (§6 output contract). -/
def Renderer.writeLink (r : Renderer) (st : Style) (s : Str) (_dest : Str) : Renderer :=
  { r with pdf := r.pdf.write (st.size + st.spacing) s }

/-- Modelled from the spec: `multiCell` (not under src/) — writes a
wrapped text block (§6 output contract). -/
def Renderer.multiCell (r : Renderer) (st : Style) (s : Str) : Renderer :=
  { r with pdf := r.pdf.write (st.size + st.spacing) s }

/-- `strings.TrimLeft(s, " \t")`. -/
def trimLeftWS (s : Str) : Str := s.dropWhile (fun c => c == 32 || c == 9)

/-- The stripped remainder computed by `stripCheckboxMarker` for a
matched text node: trim after the marker, re-prepending the original
leading whitespace when there was any. -/
def checkRemainder (lit trimmed : Str) (leading : Nat) : Str :=
  let remainder := trimLeftWS (trimmed.drop 3)
  if 0 < leading then lit.take leading ++ remainder else remainder

/-- The body of the `WalkFunc` inside `stripCheckboxMarker`, applied to
one text node's literal: if, after trimming leading spaces/tabs, the
literal starts with `"[ ]"`, `"[x]"` or `"[X]"`, return the checkbox
symbol and the stripped literal. -/
def checkMarker (lit : Str) : Option (Nat × Str) :=
  let trimmed := trimLeftWS lit
  let leading := lit.length - trimmed.length
  if trimmed.length < 3 then none
  else
    let marker := trimmed.take 3
    if marker = patUnchecked then some (0x2610, checkRemainder lit trimmed leading)
    else if marker = patCheckedLower ∨ marker = patCheckedUpper then
      some (0x2611, checkRemainder lit trimmed leading)
    else none

/-- `stripCheckboxMarker` of `processor_test.go`: walk the item's text
nodes in document order, strip the first checkbox marker found, and
return its canonical symbol.  The item node is modelled by the sequence
of its text literals. -/
def stripCheckboxMarker : List Str → Option Nat × List Str
  | [] => (none, [])
  | lit :: rest =>
    match checkMarker lit with
    | some (sym, newLit) => (some sym, newLit :: rest)
    | none =>
      let (s, r) := stripCheckboxMarker rest
      (s, lit :: r)

/-- `processList` of `processor_test.go`.  The list kind is passed
directly (the source derives it from `node.ListFlags`); `start` is
`node.Start` and `transition` the presence of the
`data-list-transition` attribute. -/
def processList (r : Renderer) (kind : ListKind) (start : Int)
    (transition : Bool) (entering : Bool) : Renderer :=
  let r := r.setStyler r.normal
  if entering then
    let parent := r.peek
    let r := if transition then r.cr else r
    let r :=
      if parent.listkind ≠ .notlist ∧ 2 ≤ r.cs.length then
        let style := r.peek.textStyle
        let reducedLH := (style.size + style.spacing) * (2/5)
        { r with pdf := r.pdf.write reducedLH [10] }
      else r
    let baseMargin :=
      if parent.contentLeftMargin = 0 then parent.leftMargin
      else parent.contentLeftMargin
    let newLeftMargin := baseMargin + r.indentValue
    let r := { r with pdf := r.pdf.setLeftMargin newLeftMargin }
    let x : ContainerState :=
      { textStyle := r.normal, itemNumber := 0, listkind := kind,
        leftMargin := newLeftMargin, contentLeftMargin := newLeftMargin,
        orderedCounterBackup := r.orderedListCounter }
    if kind = .ordered then
      let startC := if start ≤ 0 then 1 else start
      let r := { r with orderedListCounter := startC - 1 }
      r.push { x with itemNumber := startC - 1 }
    else r.push x
  else
    let r := { r with pdf := r.pdf.setLeftMargin (r.peek.leftMargin - r.indentValue) }
    let r :=
      if r.peek.listkind = .ordered then
        { r with orderedListCounter := r.peek.orderedCounterBackup }
      else r
    let r := r.pop
    if r.cs.length < 2 then r.cr else r

/-- The bullet label initially chosen by `processItem` (before the
width-fallback chain): checkbox symbol or `"•"` for unordered items,
`"<n>."` for ordered items, with the final `""`-to-`"•"` default. -/
def bulletLabel0 (kind : ListKind) (itemNum : Int) (cbox : Option Nat) : Str :=
  let b :=
    match kind with
    | .unordered =>
      match cbox with
      | some s => [s]
      | none => [0x2022]
    | .ordered => intToStr itemNum ++ [46]
    | _ => []
  if b = [] then [0x2022] else b

/-- The bullet-label fallback chain of `processItem`: if the chosen
label measures zero width and came from a checkbox symbol, fall back to
the ASCII checkbox text; if the width is still zero, fall back to
`"-"`. -/
def resolveBullet (wf : Str → ℚ) (kind : ListKind) (itemNum : Int)
    (cbox : Option Nat) : Str :=
  let b0 := bulletLabel0 kind itemNum cbox
  let b1 :=
    if wf b0 = 0 ∧ cbox ≠ none then
      if cbox = some 0x2611 then patCheckedLower else patUnchecked
    else b0
  if wf b1 = 0 then [45] else b1

/-- `processItem` of `processor_test.go`.  The list-item node is
modelled by the sequence of its text literals (consumed by
`stripCheckboxMarker`). -/
def processItem (r : Renderer) (texts : List Str) (entering : Bool) : Renderer :=
  if entering then
    let parent : ContainerState := r.peek
    let itemNum : Int :=
      if parent.listkind = .ordered then r.orderedListCounter + 1
      else parent.itemNumber + 1
    let r1 : Renderer :=
      if parent.listkind = .ordered then { r with orderedListCounter := itemNum }
      else r
    let r2 : Renderer := Renderer.updTop r1 (fun f => { f with itemNumber := itemNum })
    let listStyle : Style := { size := r2.normal.size, spacing := 6/5,
                               styleStr := r2.normal.styleStr }
    let LH : ℚ := listStyle.size - 2
    let r3 : Renderer := { r2 with pdf := Canvas.write r2.pdf LH [10] }
    let x : ContainerState :=
      { textStyle := listStyle, itemNumber := itemNum, listkind := parent.listkind,
        firstParagraph := true, leftMargin := parent.leftMargin,
        contentLeftMargin := parent.leftMargin }
    let r4 : Renderer := Renderer.push r3 x
    let r5 : Renderer := Renderer.setStyler r4 (Renderer.peek r4).textStyle
    let r6 : Renderer := { r5 with pdf := Canvas.setX r5.pdf (Renderer.peek r5).leftMargin }
    let cbox : Option Nat :=
      if (Renderer.peek r6).listkind = .unordered then (stripCheckboxMarker texts).1
      else none
    let bulletLabel : Str :=
      resolveBullet r6.pdf.widthFn (Renderer.peek r6).listkind
        (Renderer.peek r6).itemNumber cbox
    let labelWidth : ℚ := r6.pdf.widthFn bulletLabel
    let lineHeight : ℚ := x.textStyle.size + x.textStyle.spacing
    let desiredWidth : ℚ := max (labelWidth + (7/20) * r6.em) ((6/5) * r6.em)
    let r7 : Renderer := { r6 with pdf := Canvas.write r6.pdf lineHeight bulletLabel }
    let currentX : ℚ := r7.pdf.x
    let newContentLeft0 : ℚ := (Renderer.peek r7).leftMargin + desiredWidth
    let newContentLeft : ℚ :=
      if currentX < newContentLeft0 then newContentLeft0 else currentX
    let r8 : Renderer :=
      if currentX < newContentLeft0 then { r7 with pdf := Canvas.setX r7.pdf newContentLeft0 }
      else r7
    let r9 : Renderer :=
      Renderer.updTop r8 (fun f => { f with contentLeftMargin := newContentLeft })
    let r10 : Renderer := { r9 with pdf := Canvas.setLeftMargin r9.pdf newContentLeft }
    { r10 with pdf := Canvas.setX r10.pdf newContentLeft }
  else
    let r1 : Renderer := { r with pdf := Canvas.setLeftMargin r.pdf (Renderer.peek r).leftMargin }
    Renderer.pop r1

/-- `processHeading` of `processor_test.go`: push the frame for the
heading level on entering (levels outside 1..6 fall through the
`switch` without pushing), pop on leaving. -/
def processHeading (r : Renderer) (level : Nat) (entering : Bool) : Renderer :=
  if entering then
    let r := r.resetListCounter
    let r := r.cr
    let mkFrame (st : Style) : ContainerState :=
      { textStyle := st, listkind := .notlist,
        leftMargin := r.peek.leftMargin, contentLeftMargin := r.peek.leftMargin }
    match level with
    | 1 => r.push (mkFrame r.h1)
    | 2 => r.push (mkFrame r.h2)
    | 3 => r.push (mkFrame r.h3)
    | 4 => r.push (mkFrame r.h4)
    | 5 => r.push (mkFrame r.h5)
    | 6 => r.push (mkFrame r.h6)
    | _ => r
  else
    let r := r.cr
    r.pop

/-- `strings.Replace(s, pat, rep, 1)` with nonempty pattern: replace
only the first occurrence. -/
def replaceFirstGo (p0 : Nat) (ptail rep : Str) : Str → Str
  | [] => []
  | c :: rest =>
    if leadsB (p0 :: ptail) (c :: rest) then
      rep ++ rest.drop ptail.length
    else c :: replaceFirstGo p0 ptail rep rest

/-- `processLink` of `processor_test.go`: anchor links with anchor
rendering disabled get a plain-text frame; otherwise a link frame whose
destination may be resolved against `InputBaseURL`. -/
def processLink (r : Renderer) (dest : Str) (entering : Bool) : Renderer :=
  if entering then
    let isAnchorLink := leadsB [35] dest
    if isAnchorLink ∧ !r.anchorLinks then
      r.push
        { textStyle := r.normal, listkind := .notlist,
          leftMargin := r.peek.leftMargin, contentLeftMargin := r.peek.leftMargin,
          destination := [] }
    else
      let destination :=
        if r.inputBaseURL ≠ [] ∧ ¬ leadsB [104, 116, 116, 112] dest ∧ ¬ isAnchorLink then
          r.inputBaseURL ++ [47] ++ replaceFirstGo 46 [47] [] dest
        else dest
      r.push
        { textStyle := r.linkStyle, listkind := .notlist,
          leftMargin := r.peek.leftMargin, contentLeftMargin := r.peek.leftMargin,
          destination := destination }
  else r.pop

/-- `processBlockQuote` of `processor_test.go`. -/
def processBlockQuote (r : Renderer) (entering : Bool) : Renderer :=
  if entering then
    let r := r.resetListCounter
    let curleftmargin := r.pdf.leftMargin
    let r := r.push
      { textStyle := r.blockquoteStyle, listkind := .notlist,
        leftMargin := curleftmargin + r.indentValue,
        contentLeftMargin := curleftmargin + r.indentValue }
    { r with pdf := r.pdf.setLeftMargin (curleftmargin + r.indentValue) }
  else
    let curleftmargin := r.pdf.leftMargin
    let r := { r with pdf := r.pdf.setLeftMargin (curleftmargin - r.indentValue) }
    let r := r.pop
    r.cr

/-- `processTable` of `processor_test.go`: stage the precomputed column
widths for this table's identity; on leaving draw the closing rule and
pop. -/
def processTable (r : Renderer) (id : Nat) (entering : Bool) : Renderer :=
  if entering then
    let x : ContainerState :=
      { textStyle := r.thStyle, listkind := .notlist,
        leftMargin := r.peek.leftMargin, contentLeftMargin := r.peek.leftMargin }
    let r := r.cr
    let r := r.push x
    let r := { r with fill := false, cellwidths := r.columnWidths id }
    { r with pdf := { r.pdf with lineWidth := 1 } }
  else
    let wSum := r.cellwidths.sum
    let r := { r with pdf := r.pdf.cellFormat wSum 0 [] }
    let r := r.pop
    r.cr

/-- `processTableHead` of `processor_test.go`. -/
def processTableHead (r : Renderer) (entering : Bool) : Renderer :=
  if entering then
    r.push
      { textStyle := r.thStyle, listkind := .notlist,
        leftMargin := r.peek.leftMargin, contentLeftMargin := r.peek.leftMargin }
  else r.pop

/-- `processTableBody` of `processor_test.go`. -/
def processTableBody (r : Renderer) (entering : Bool) : Renderer :=
  if entering then
    r.push
      { textStyle := r.tbStyle, listkind := .notlist,
        leftMargin := r.peek.leftMargin, contentLeftMargin := r.peek.leftMargin }
  else
    let r := r.pop
    { r with pdf := r.pdf.lnBreak }

/-- `processTableRow` of `processor_test.go`. -/
def processTableRow (r : Renderer) (entering : Bool) : Renderer :=
  if entering then
    let x : ContainerState :=
      { textStyle := r.tbStyle, listkind := .notlist,
        leftMargin := r.peek.leftMargin, contentLeftMargin := r.peek.leftMargin }
    let x := if r.peek.isHeader then { x with textStyle := r.thStyle } else x
    let r := { r with pdf := r.pdf.lnBreak }
    let r := { r with curdatacell := 0 }
    r.push x
  else r.pop

/-- `processTableCell` of `processor_test.go`: on entering push an
isolated cell frame and activate cell buffering; on leaving draw the
buffered string at the column's width (header cells with a bottom
border) and advance the cell index. -/
def processTableCell (r : Renderer) (isHeader : Bool) (entering : Bool) : Renderer :=
  if entering then
    let x : ContainerState :=
      { textStyle := r.normal, listkind := .notlist,
        leftMargin := r.peek.leftMargin, contentLeftMargin := r.peek.leftMargin }
    let (x, r) :=
      if isHeader then
        ({ x with isHeader := true, textStyle := r.thStyle }, r.setStyler r.thStyle)
      else
        ({ x with isHeader := false, textStyle := r.tbStyle }, r.setStyler r.tbStyle)
    let r := r.push x
    { r with incell := true }
  else
    let r := { r with incell := false }
    let cell := r.peek
    let r := r.pop
    let currentStyle :=
      match cell.cellInnerStringStyle with
      | some st => st
      | none => cell.textStyle
    let s := cell.cellInnerString
    let w := r.cellwidths.getD r.curdatacell 0
    let r :=
      if cell.isHeader then
        let h := r.pdf.font.size + currentStyle.spacing
        { r with pdf := r.pdf.cellFormat w h s }
      else
        let h := currentStyle.size + currentStyle.spacing
        { r with pdf := r.pdf.cellFormat w h s }
    { r with curdatacell := r.curdatacell + 1 }

/-- The parent-node kinds `processText` dispatches on. -/
inductive ParentKind where
  | link
  | heading
  | blockQuote
  | other
deriving DecidableEq, Repr

/-- `processText` of `processor_test.go`: fold newlines (outside
blockquote-style mode), apply the checkbox substitution, buffer into
the open cell when cell buffering is active, and otherwise apply icon
handling and BMP sanitization before writing (the heading branch's
table-of-contents link anchoring is a canvas annotation, not a text
draw, and is not modelled). -/
def processText (r : Renderer) (parent : ParentKind) (lit : Str) : Renderer :=
  let currentStyle := r.peek.textStyle
  let r := r.setStyler currentStyle
  let s := lit
  let s := if !r.needBlockquoteStyleUpdate then foldNewlines s else s
  let s := fixCheckboxes s
  if r.incell then
    r.updTop (fun f =>
      { f with cellInnerString := f.cellInnerString ++ s,
               cellInnerStringStyle := some currentStyle })
  else
    let s := handleIcons r.iconHandling s
    let s := sanitizeText r.iconHandling s
    match parent with
    | .link => r.writeLink currentStyle s r.peek.destination
    | .heading => r.writeSegmented currentStyle s
    | .blockQuote => if r.needBlockquoteStyleUpdate then r.multiCell currentStyle s else r
    | .other => r.writeSegmented currentStyle s

/-- The document-node kinds with container-stack handlers, with the
node data each handler consumes. -/
inductive NK where
  | list (kind : ListKind) (start : Int) (transition : Bool)
  | item (texts : List Str)
  | heading (level : Nat)
  | link (dest : Str)
  | quote
  | table (id : Nat)
  | thead
  | tbody
  | trow
  | tcell (isHeader : Bool)

/-- Dispatch of the enter event to the per-kind handler. -/
def enterNode (k : NK) (r : Renderer) : Renderer :=
  match k with
  | .list kind start tr => processList r kind start tr true
  | .item texts => processItem r texts true
  | .heading level => processHeading r level true
  | .link dest => processLink r dest true
  | .quote => processBlockQuote r true
  | .table id => processTable r id true
  | .thead => processTableHead r true
  | .tbody => processTableBody r true
  | .trow => processTableRow r true
  | .tcell ih => processTableCell r ih true

/-- Dispatch of the leave event to the per-kind handler. -/
def leaveNode (k : NK) (r : Renderer) : Renderer :=
  match k with
  | .list kind start tr => processList r kind start tr false
  | .item texts => processItem r texts false
  | .heading level => processHeading r level false
  | .link dest => processLink r dest false
  | .quote => processBlockQuote r false
  | .table id => processTable r id false
  | .thead => processTableHead r false
  | .tbody => processTableBody r false
  | .trow => processTableRow r false
  | .tcell ih => processTableCell r ih false

theorem segGo_join (cs : List Cluster) :
    ∀ acc, ((segGo cs acc).map TextSegment.Content).flatten = acc ++ cs.flatten := by
  induction cs with
  | nil =>
    intro acc
    by_cases h : acc.isEmpty
    · simp [segGo, h, List.isEmpty_iff.mp h]
    · simp [segGo, h]
  | cons c rest ih =>
    intro acc
    by_cases h : isEmojiGrapheme c
    · by_cases ha : acc.isEmpty
      · simp [segGo, h, ha, ih, List.isEmpty_iff.mp ha]
      · simp [segGo, h, ha, ih]
    · simp [segGo, h, ih (acc ++ c)]

theorem segGo_filter (cs : List Cluster) :
    ∀ acc, (segGo cs acc).filter (fun s => s.IsEmoji) =
      (cs.filter (fun c => isEmojiGrapheme c)).map (fun c => (⟨true, c, c⟩ : TextSegment)) := by
  induction cs with
  | nil =>
    intro acc
    by_cases h : acc.isEmpty <;> simp [segGo, h]
  | cons c rest ih =>
    intro acc
    by_cases h : isEmojiGrapheme c
    · by_cases ha : acc.isEmpty <;> simp [segGo, h, ha, ih]
    · simp [segGo, h, ih]

theorem segGo_chain (cs : List Cluster) :
    ∀ acc, List.Chain' (fun a b => a.IsEmoji || b.IsEmoji) (segGo cs acc) := by
  induction cs with
  | nil =>
    intro acc
    by_cases h : acc.isEmpty <;> simp [segGo, h]
  | cons c rest ih =>
    intro acc
    by_cases h : isEmojiGrapheme c
    · have tailChain : List.Chain' (fun a b => a.IsEmoji || b.IsEmoji)
          ((⟨true, c, c⟩ : TextSegment) :: segGo rest []) := by
        refine List.chain'_cons'.mpr ⟨?_, ih []⟩
        intro y _
        simp
      by_cases ha : acc.isEmpty
      · simpa [segGo, h, ha] using tailChain
      · have hshape : segGo (c :: rest) acc =
            (⟨false, acc, acc⟩ : TextSegment) :: (⟨true, c, c⟩ : TextSegment) :: segGo rest [] := by
          simp [segGo, h, ha]
        rw [hshape]
        exact List.chain'_cons.mpr ⟨by simp, tailChain⟩
    · simp only [segGo, h, if_false]
      exact ih (acc ++ c)

theorem segGo_emoji_mem (cs : List Cluster) (acc : Str) (s : TextSegment)
    (hs : s ∈ segGo cs acc) (he : s.IsEmoji = true) :
    s.Content ∈ cs ∧ isEmojiGrapheme s.Content = true ∧ s.Runes = s.Content := by
  have hmem : s ∈ (segGo cs acc).filter (fun t => t.IsEmoji) :=
    List.mem_filter.mpr ⟨hs, by simpa using he⟩
  rw [segGo_filter] at hmem
  obtain ⟨c, hc, rfl⟩ := List.mem_map.mp hmem
  have := List.mem_filter.mp hc
  exact ⟨this.1, by simpa using this.2, rfl⟩

/-- C4: `segmentTextWithEmoji` yields a finite ordered segment sequence
in which every icon segment is a single input grapheme cluster (with
`Runes` matching `Content`), no two adjacent segments are both plain
(consecutive non-icon clusters merge), and the concatenation of the
segments' `Content` fields reconstructs the input (the concatenation of
the iterator's clusters). -/
theorem segmentTextWithEmoji_structure (cs : List Cluster) :
    ((segmentTextWithEmoji cs).map TextSegment.Content).flatten = cs.flatten ∧
    List.Chain' (fun a b => a.IsEmoji || b.IsEmoji) (segmentTextWithEmoji cs) ∧
    ∀ s ∈ segmentTextWithEmoji cs, s.IsEmoji = true →
      s.Content ∈ cs ∧ isEmojiGrapheme s.Content = true ∧ s.Runes = s.Content := by
  refine ⟨by simpa using segGo_join cs [], segGo_chain cs [], ?_⟩
  intro s hs he
  exact segGo_emoji_mem cs [] s hs he

/-- C3: a multi-code-point cluster classified as an icon (leading code
point in the badge table or the symbol/pictograph ranges, or containing
the combining enclosing keycap U+20E3) is recognized by
`isEmojiGrapheme`, and the icon segments of the output are exactly the
icon clusters of the input, one segment per cluster occurrence, whole
and in order — never split across two segments and never merged into a
plain segment. -/
theorem emoji_cluster_single_segment (cs : List Cluster) (c : Cluster)
    (hlen : 1 < c.length)
    (hicon : (∃ r rs, c = r :: rs ∧ isEmojiRune r = true) ∨ (0x20E3 ∈ c)) :
    isEmojiGrapheme c = true ∧
    ((segmentTextWithEmoji cs).filter (fun s => s.IsEmoji)).map TextSegment.Content =
      cs.filter (fun c => isEmojiGrapheme c) ∧
    (c ∈ cs → (⟨true, c, c⟩ : TextSegment) ∈ segmentTextWithEmoji cs) := by
  have hcls : isEmojiGrapheme c = true := by
    match c, hlen with
    | r :: rs, _ =>
      by_cases hk : (r :: rs).any (fun x => x == 0x20E3)
      · simp [isEmojiGrapheme, hk]
      · rcases hicon with ⟨r', rs', heq, hr⟩ | hkey
        · cases heq
          simp [isEmojiGrapheme, hk, hr]
        · exfalso
          exact hk (List.any_eq_true.mpr ⟨0x20E3, hkey, by simp⟩)
  refine ⟨hcls, ?_, ?_⟩
  · rw [segmentTextWithEmoji, segGo_filter]
    simp [Function.comp_def]
  · intro hc
    have : (⟨true, c, c⟩ : TextSegment) ∈
        (segmentTextWithEmoji cs).filter (fun s => s.IsEmoji) := by
      rw [segmentTextWithEmoji, segGo_filter]
      exact List.mem_map.mpr ⟨c, List.mem_filter.mpr ⟨hc, by simpa using hcls⟩, rfl⟩
    exact (List.mem_filter.mp this).1

/-- C3 witness: the keycap sequence 1︎⃣ (U+0031 U+FE0F U+20E3) inside a
concrete cluster sequence. -/
theorem emoji_cluster_single_segment_witness :
    (1 < ([0x31, 0xFE0F, 0x20E3] : Cluster).length ∧
      (0x20E3 ∈ ([0x31, 0xFE0F, 0x20E3] : Cluster))) ∧
    (isEmojiGrapheme [0x31, 0xFE0F, 0x20E3] = true ∧
      ((segmentTextWithEmoji [[97], [0x31, 0xFE0F, 0x20E3], [98]]).filter
          (fun s => s.IsEmoji)).map TextSegment.Content =
        ([[97], [0x31, 0xFE0F, 0x20E3], [98]] : List Cluster).filter
          (fun c => isEmojiGrapheme c) ∧
    (([0x31, 0xFE0F, 0x20E3] : Cluster) ∈ ([[97], [0x31, 0xFE0F, 0x20E3], [98]] : List Cluster) →
      (⟨true, [0x31, 0xFE0F, 0x20E3], [0x31, 0xFE0F, 0x20E3]⟩ : TextSegment) ∈
        segmentTextWithEmoji [[97], [0x31, 0xFE0F, 0x20E3], [98]])) :=
  ⟨⟨by decide, by decide⟩,
    emoji_cluster_single_segment [[97], [0x31, 0xFE0F, 0x20E3], [98]]
      [0x31, 0xFE0F, 0x20E3] (by decide) (Or.inr (by decide))⟩

theorem handleIcons_keep_strip_aux :
    ∀ n (l : Str), l.length ≤ n →
      List.Forall₂ (fun a b => b = if isBadge a = true ∨ 65535 < a then 32 else a)
        (handleIcons .keep l) (handleIcons .strip l) := by
  intro n
  induction n with
  | zero =>
    intro l hl
    have : l = [] := List.length_eq_zero.mp (Nat.le_zero.mp hl)
    subst this
    exact List.Forall₂.nil
  | succ n ih =>
    intro l hl
    match l with
    | [] =>
      exact List.Forall₂.nil
    | [ch] =>
      by_cases hv : isVS ch = true
      · simp only [handleIcons, hv, if_true]
        exact List.Forall₂.cons (by decide) (ih [] (by simp))
      · cases hlk : iconBadges.lookup ch with
        | some badge =>
          have hbadge : isBadge ch = true := by simp [isBadge, hlk]
          simp only [handleIcons, hv, Bool.false_eq_true, if_false, hlk, iconOut,
            List.append_nil]
          exact List.Forall₂.cons (by simp [hbadge]) List.Forall₂.nil
        | none =>
          have hbad : isBadge ch = false := by simp [isBadge, hlk]
          by_cases hh : 65535 < ch
          · simp only [handleIcons, hv, Bool.false_eq_true, if_false, hlk, hh,
              if_true, highOut, List.append_nil]
            exact List.Forall₂.cons (by simp [hh]) List.Forall₂.nil
          · simp only [handleIcons, hv, Bool.false_eq_true, if_false, hlk, hh]
            exact List.Forall₂.cons (by simp [hbad, hh]) List.Forall₂.nil
    | ch :: v :: rest2 =>
      have hr1 : (v :: rest2).length ≤ n := by
        simpa using Nat.succ_le_succ_iff.mp (by simpa using hl)
      have hr2 : rest2.length ≤ n := Nat.le_of_succ_le (by simpa using hl)
      by_cases hv : isVS ch = true
      · simp only [handleIcons, hv, if_true]
        exact List.Forall₂.cons (by decide) (ih (v :: rest2) hr1)
      · cases hlk : iconBadges.lookup ch with
        | some badge =>
          have hbadge : isBadge ch = true := by simp [isBadge, hlk]
          have hrel : (32 : Nat) = if isBadge ch = true ∨ 65535 < ch then 32 else ch := by
            simp [hbadge]
          by_cases hv2 : isVS v = true
          · simp only [handleIcons, hv, Bool.false_eq_true, if_false, hlk, iconOut,
              hv2, if_true, List.cons_append, List.nil_append]
            exact List.Forall₂.cons hrel
              (List.Forall₂.cons (by decide) (ih rest2 hr2))
          · simp only [handleIcons, hv, Bool.false_eq_true, if_false, hlk, iconOut,
              hv2, List.cons_append, List.nil_append]
            exact List.Forall₂.cons hrel (ih (v :: rest2) hr1)
        | none =>
          have hbad : isBadge ch = false := by simp [isBadge, hlk]
          by_cases hh : 65535 < ch
          · have hrel : (32 : Nat) = if isBadge ch = true ∨ 65535 < ch then 32 else ch := by
              simp [hh]
            by_cases hv2 : isVS v = true
            · simp only [handleIcons, hv, Bool.false_eq_true, if_false, hlk, hh,
                if_true, highOut, hv2, List.cons_append, List.nil_append]
              exact List.Forall₂.cons hrel
                (List.Forall₂.cons (by decide) (ih rest2 hr2))
            · simp only [handleIcons, hv, Bool.false_eq_true, if_false, hlk, hh,
                if_true, highOut, hv2, List.cons_append, List.nil_append]
              exact List.Forall₂.cons hrel (ih (v :: rest2) hr1)
          · have hrel : ch = if isBadge ch = true ∨ 65535 < ch then 32 else ch := by
              simp [hbad, hh]
            simp only [handleIcons, hv, Bool.false_eq_true, if_false, hlk, hh]
            exact List.Forall₂.cons hrel (ih (v :: rest2) hr1)

/-- C5: icon handling under Strip mode and under Keep mode produce
outputs of identical length and boundaries, pointwise related so that
every position Keep leaves holding an icon (badge-table code point or
code point above 65535) holds exactly one space under Strip, and every
other position is identical between the two modes. -/
theorem handleIcons_strip_matches_keep (l : Str) :
    List.Forall₂ (fun a b => b = if isBadge a = true ∨ 65535 < a then 32 else a)
      (handleIcons .keep l) (handleIcons .strip l) ∧
    (handleIcons .strip l).length = (handleIcons .keep l).length := by
  have h := handleIcons_keep_strip_aux l.length l (le_refl _)
  exact ⟨h, (List.Forall₂.length_eq h).symm⟩

/-- C7: outside Embed mode, `sanitizeText` leaves every code point at
or below 65535 unchanged, replaces each code point above 65535 by
exactly one space, and so bounds every output code point by 65535
(keeping the glyph-width table index in bounds); under Embed mode the
input passes through unchanged. -/
theorem sanitizeText_bmp_safe (m : IconMode) (l : Str) :
    (m ≠ .embed →
      (sanitizeText m l).length = l.length ∧
      (∀ r ∈ sanitizeText m l, r ≤ 65535) ∧
      (∀ i, i < l.length →
        (sanitizeText m l).getD i 0 =
          if 65535 < l.getD i 0 then 32 else l.getD i 0)) ∧
    sanitizeText .embed l = l := by
  constructor
  · intro hm
    refine ⟨by simp [sanitizeText, hm], ?_, ?_⟩
    · intro r hr
      simp only [sanitizeText, hm, if_false, List.mem_map] at hr
      obtain ⟨a, _, rfl⟩ := hr
      by_cases h : 65535 < a
      · simp [h]
      · simp [h]
        omega
    · intro i hi
      simp only [sanitizeText, hm, if_false]
      rw [List.getD_eq_getElem?_getD, List.getD_eq_getElem?_getD,
        List.getElem?_map]
      have : l[i]? = some l[i] := List.getElem?_eq_getElem hi
      rw [this]
      simp
  · simp [sanitizeText]

/-- C7 witness: Strip mode on a string with a supplementary-plane code
point and an ASCII letter. -/
theorem sanitizeText_bmp_safe_witness :
    (IconMode.strip ≠ IconMode.embed) ∧
    ((IconMode.strip ≠ IconMode.embed →
      (sanitizeText .strip [0x1F680, 65]).length = ([0x1F680, 65] : Str).length ∧
      (∀ r ∈ sanitizeText .strip [0x1F680, 65], r ≤ 65535) ∧
      (∀ i, i < ([0x1F680, 65] : Str).length →
        (sanitizeText .strip [0x1F680, 65]).getD i 0 =
          if 65535 < ([0x1F680, 65] : Str).getD i 0 then 32
          else ([0x1F680, 65] : Str).getD i 0)) ∧
    sanitizeText .embed [0x1F680, 65] = [0x1F680, 65]) :=
  ⟨by decide, sanitizeText_bmp_safe .strip [0x1F680, 65]⟩

/-- `q` is an initial run of `s`. -/
def leads (q s : Str) : Prop := ∃ v, s = q ++ v

/-- `q` occurs as a contiguous run inside `s`. -/
def occurs (q s : Str) : Prop := ∃ u v, s = u ++ q ++ v

/-- `q` is a final run of `s`. -/
def endsIn (q s : Str) : Prop := ∃ u, s = u ++ q

theorem leads_nil_right (q : Str) : leads q [] ↔ q = [] := by
  constructor
  · rintro ⟨v, hv⟩
    exact List.append_eq_nil.mp hv.symm |>.1
  · rintro rfl
    exact ⟨[], rfl⟩

theorem leadsB_iff (q s : Str) : leadsB q s = true ↔ leads q s := by
  induction q generalizing s with
  | nil => simp [leadsB, leads]
  | cons a q ih =>
    cases s with
    | nil =>
      simp only [leadsB, Bool.false_eq_true, false_iff]
      rintro ⟨v, hv⟩
      exact absurd hv.symm (by simp)
    | cons c s =>
      simp only [leadsB, Bool.and_eq_true, beq_iff_eq, ih]
      constructor
      · rintro ⟨rfl, v, rfl⟩
        exact ⟨v, rfl⟩
      · rintro ⟨v, hv⟩
        obtain ⟨rfl, rfl⟩ := by
          simpa using hv
        exact ⟨rfl, v, rfl⟩

theorem occurs_cons (q : Str) (c : Nat) (s : Str) :
    occurs q (c :: s) ↔ leads q (c :: s) ∨ occurs q s := by
  constructor
  · rintro ⟨u, v, hv⟩
    cases u with
    | nil => exact Or.inl ⟨v, by simpa using hv⟩
    | cons d u' =>
      right
      refine ⟨u', v, ?_⟩
      have := hv
      simp only [List.cons_append] at this
      exact (List.cons.injEq _ _ _ _ ▸ this).2
  · rintro (⟨v, hv⟩ | ⟨u, v, hv⟩)
    · exact ⟨[], v, by simpa using hv⟩
    · exact ⟨c :: u, v, by simp [hv]⟩

theorem occurs_append_left (q w t : Str) (h : occurs q t) : occurs q (w ++ t) := by
  obtain ⟨u, v, rfl⟩ := h
  exact ⟨w ++ u, v, by simp⟩

theorem leads_occurs (q s : Str) (h : leads q s) : occurs q s := by
  obtain ⟨v, rfl⟩ := h
  exact ⟨[], v, rfl⟩

theorem replaceAllGo_not_occurs_id (p0 : Nat) (ptail rep : Str) :
    ∀ n (s : Str), s.length ≤ n → ¬ occurs (p0 :: ptail) s →
      replaceAllGo p0 ptail rep s = s := by
  intro n
  induction n with
  | zero =>
    intro s hl _
    have : s = [] := List.length_eq_zero.mp (Nat.le_zero.mp hl)
    subst this
    simp [replaceAllGo]
  | succ n ih =>
    intro s hl hocc
    cases s with
    | nil => simp [replaceAllGo]
    | cons c rest =>
      have hb : leadsB (p0 :: ptail) (c :: rest) = false := by
        by_contra h
        have := (leadsB_iff _ _).mp (eq_true_of_ne_false (by simpa using h))
        exact hocc (leads_occurs _ _ this)
      simp only [replaceAllGo, hb, Bool.false_eq_true, if_false]
      have hrest : ¬ occurs (p0 :: ptail) rest := by
        intro h
        exact hocc ((occurs_cons _ _ _).mpr (Or.inr h))
      rw [ih rest (by simpa using Nat.succ_le_succ_iff.mp hl) hrest]

theorem replaceAllGo_leads_transfer (p0 : Nat) (ptail : Str) (r : Nat) (Q : Str) :
    ∀ n (s p : Str), s.length ≤ n → endsIn p Q →
      leads p (replaceAllGo p0 ptail [r] s) → p = [] ∨ r ∈ p ∨ leads p s := by
  intro n
  induction n with
  | zero =>
    intro s p hl _ hp
    have : s = [] := List.length_eq_zero.mp (Nat.le_zero.mp hl)
    subst this
    simp only [replaceAllGo] at hp
    exact Or.inl ((leads_nil_right p).mp hp)
  | succ n ih =>
    intro s p hl hend hp
    cases s with
    | nil =>
      simp only [replaceAllGo] at hp
      exact Or.inl ((leads_nil_right p).mp hp)
    | cons c rest =>
      by_cases hb : leadsB (p0 :: ptail) (c :: rest) = true
      · simp only [replaceAllGo, hb, if_true, List.cons_append, List.nil_append] at hp
        cases p with
        | nil => exact Or.inl rfl
        | cons d p' =>
          obtain ⟨v, hv⟩ := hp
          have : d = r := by
            have := congrArg (fun l => l.headD 0) hv
            simp at this
            omega
          subst this
          exact Or.inr (Or.inl (by simp))
      · simp only [replaceAllGo, hb, Bool.false_eq_true, if_false] at hp
        cases p with
        | nil => exact Or.inl rfl
        | cons d p' =>
          obtain ⟨v, hv⟩ := hp
          have hd : c = d := by simpa using congrArg (fun l => l.headD 0) hv
          have hp' : leads p' (replaceAllGo p0 ptail [r] rest) := by
            refine ⟨v, ?_⟩
            have := hv
            simp only [List.cons_append] at this
            exact (List.cons.injEq _ _ _ _ ▸ this).2
          have hend' : endsIn p' Q := by
            obtain ⟨u, hu⟩ := hend
            exact ⟨u ++ [d], by simp [hu]⟩
          rcases ih rest p' (by simpa using Nat.succ_le_succ_iff.mp hl) hend' hp' with
            h0 | hr | ⟨w, hw⟩
          · subst h0
            exact Or.inr (Or.inr ⟨rest, by simp [hd]⟩)
          · exact Or.inr (Or.inl (by simp [hr]))
          · exact Or.inr (Or.inr ⟨w, by simp [hd, hw]⟩)

theorem replaceAllGo_self_free (p0 : Nat) (ptail : Str) (r : Nat)
    (hr : r ∉ p0 :: ptail) :
    ∀ n (s : Str), s.length ≤ n →
      ¬ occurs (p0 :: ptail) (replaceAllGo p0 ptail [r] s) := by
  intro n
  induction n with
  | zero =>
    intro s hl
    have : s = [] := List.length_eq_zero.mp (Nat.le_zero.mp hl)
    subst this
    simp only [replaceAllGo]
    intro h
    obtain ⟨u, v, hv⟩ := h
    exact absurd hv.symm (by simp)
  | succ n ih =>
    intro s hl
    cases s with
    | nil =>
      simp only [replaceAllGo]
      intro h
      obtain ⟨u, v, hv⟩ := h
      exact absurd hv.symm (by simp)
    | cons c rest =>
      have hrest : rest.length ≤ n := by simpa using Nat.succ_le_succ_iff.mp hl
      by_cases hb : leadsB (p0 :: ptail) (c :: rest) = true
      · simp only [replaceAllGo, hb, if_true, List.cons_append, List.nil_append]
        intro h
        rcases (occurs_cons _ _ _).mp h with ⟨v, hv⟩ | hocc
        · have : p0 = r := by simpa using congrArg (fun l => l.headD 0) hv.symm
          exact hr (this ▸ List.mem_cons_self _ _)
        · exact ih (rest.drop ptail.length) (le_trans (by simp) hrest) hocc
      · simp only [replaceAllGo, hb, Bool.false_eq_true, if_false]
        intro h
        rcases (occurs_cons _ _ _).mp h with ⟨v, hv⟩ | hocc
        · have hc : p0 = c := by simpa using congrArg (fun l => l.headD 0) hv.symm
          have hpt : leads ptail (replaceAllGo p0 ptail [r] rest) := by
            refine ⟨v, ?_⟩
            have := hv
            simp only [List.cons_append] at this
            exact (List.cons.injEq _ _ _ _ ▸ this).2
          rcases replaceAllGo_leads_transfer p0 ptail r (p0 :: ptail) n rest ptail
              hrest ⟨[p0], rfl⟩ hpt with h0 | hmem | ⟨w, hw⟩
          · subst h0
            have : leadsB (p0 :: ([] : Str)) (c :: rest) = true :=
              (leadsB_iff _ _).mpr ⟨rest, by simp [hc]⟩
            exact absurd this (by simpa using hb)
          · exact hr (List.mem_cons_of_mem _ hmem)
          · have : leadsB (p0 :: ptail) (c :: rest) = true :=
              (leadsB_iff _ _).mpr ⟨w, by simp [hc, hw]⟩
            exact absurd this hb
        · exact ih rest hrest hocc

theorem replaceAllGo_preserves_free (p0 : Nat) (ptail : Str) (r : Nat) (Q : Str)
    (hr : r ∉ Q) (hQ : Q ≠ []) :
    ∀ n (s : Str), s.length ≤ n → ¬ occurs Q s →
      ¬ occurs Q (replaceAllGo p0 ptail [r] s) := by
  intro n
  induction n with
  | zero =>
    intro s hl _
    have : s = [] := List.length_eq_zero.mp (Nat.le_zero.mp hl)
    subst this
    simp only [replaceAllGo]
    intro h
    obtain ⟨u, v, hv⟩ := h
    have := List.append_eq_nil.mp hv.symm
    exact hQ (List.append_eq_nil.mp this.1).2
  | succ n ih =>
    intro s hl hocc
    cases s with
    | nil =>
      simp only [replaceAllGo]
      intro h
      obtain ⟨u, v, hv⟩ := h
      have := List.append_eq_nil.mp hv.symm
      exact hQ (List.append_eq_nil.mp this.1).2
    | cons c rest =>
      have hrest : rest.length ≤ n := by simpa using Nat.succ_le_succ_iff.mp hl
      have hoccrest : ¬ occurs Q rest := fun h => hocc ((occurs_cons _ _ _).mpr (Or.inr h))
      by_cases hb : leadsB (p0 :: ptail) (c :: rest) = true
      · simp only [replaceAllGo, hb, if_true, List.cons_append, List.nil_append]
        intro h
        rcases (occurs_cons _ _ _).mp h with ⟨v, hv⟩ | ho
        · match Q, hQ with
          | q0 :: q', _ =>
            have : q0 = r := by
              have := congrArg (fun l => l.headD 0) hv
              simp at this
              omega
            exact hr (this ▸ List.mem_cons_self _ _)
        · have hdrop : ¬ occurs Q (rest.drop ptail.length) := by
            intro hd
            apply hocc
            have hsplit : c :: rest =
                (c :: rest.take ptail.length) ++ rest.drop ptail.length := by
              simp
            rw [hsplit]
            exact occurs_append_left _ _ _ hd
          exact ih (rest.drop ptail.length) (le_trans (by simp) hrest) hdrop ho
      · simp only [replaceAllGo, hb, Bool.false_eq_true, if_false]
        intro h
        rcases (occurs_cons _ _ _).mp h with hlead | ho
        · match Q, hQ with
          | q0 :: q', _ =>
            obtain ⟨v, hv⟩ := hlead
            have hq0 : q0 = c := by simpa using congrArg (fun l => l.headD 0) hv.symm
            have hq' : leads q' (replaceAllGo p0 ptail [r] rest) := by
              refine ⟨v, ?_⟩
              have := hv
              simp only [List.cons_append] at this
              exact (List.cons.injEq _ _ _ _ ▸ this).2
            rcases replaceAllGo_leads_transfer p0 ptail r (q0 :: q') n rest q'
                hrest ⟨[q0], rfl⟩ hq' with h0 | hmem | ⟨w, hw⟩
            · subst h0
              exact hocc (leads_occurs _ _ ⟨rest, by simp [hq0]⟩)
            · exact hr (List.mem_cons_of_mem _ hmem)
            · exact hocc (leads_occurs _ _ ⟨w, by simp [hq0, hw]⟩)
        · exact ih rest hrest hoccrest ho

/-- C6: the inline checkbox-marker substitution of `processText`
(`"[ ]" → "☐"`, `"[x]" → "☑"`, `"[X]" → "☑"`, all other characters
unchanged) is idempotent: applying it twice equals applying it once. -/
theorem fixCheckboxes_idem (s : Str) :
    fixCheckboxes (fixCheckboxes s) = fixCheckboxes s := by
  have hfix : ∀ x : Str, fixCheckboxes x =
      replaceAllGo 91 [88, 93] [0x2611]
        (replaceAllGo 91 [120, 93] [0x2611]
          (replaceAllGo 91 [32, 93] [0x2610] x)) := fun x => rfl
  set t1 := replaceAllGo 91 [32, 93] [0x2610] s with ht1
  set t2 := replaceAllGo 91 [120, 93] [0x2611] t1 with ht2
  set t3 := replaceAllGo 91 [88, 93] [0x2611] t2 with ht3
  have h1 : ¬ occurs [91, 32, 93] t1 :=
    replaceAllGo_self_free 91 [32, 93] 0x2610 (by decide) s.length s (le_refl _)
  have h2a : ¬ occurs [91, 120, 93] t2 :=
    replaceAllGo_self_free 91 [120, 93] 0x2611 (by decide) t1.length t1 (le_refl _)
  have h2b : ¬ occurs [91, 32, 93] t2 :=
    replaceAllGo_preserves_free 91 [120, 93] 0x2611 [91, 32, 93] (by decide) (by decide)
      t1.length t1 (le_refl _) h1
  have h3a : ¬ occurs [91, 88, 93] t3 :=
    replaceAllGo_self_free 91 [88, 93] 0x2611 (by decide) t2.length t2 (le_refl _)
  have h3b : ¬ occurs [91, 120, 93] t3 :=
    replaceAllGo_preserves_free 91 [88, 93] 0x2611 [91, 120, 93] (by decide) (by decide)
      t2.length t2 (le_refl _) h2a
  have h3c : ¬ occurs [91, 32, 93] t3 :=
    replaceAllGo_preserves_free 91 [88, 93] 0x2611 [91, 32, 93] (by decide) (by decide)
      t2.length t2 (le_refl _) h2b
  have r1 : replaceAllGo 91 [32, 93] [0x2610] t3 = t3 :=
    replaceAllGo_not_occurs_id 91 [32, 93] [0x2610] t3.length t3 (le_refl _) h3c
  have r2 : replaceAllGo 91 [120, 93] [0x2611] t3 = t3 :=
    replaceAllGo_not_occurs_id 91 [120, 93] [0x2611] t3.length t3 (le_refl _) h3b
  have r3 : replaceAllGo 91 [88, 93] [0x2611] t3 = t3 :=
    replaceAllGo_not_occurs_id 91 [88, 93] [0x2611] t3.length t3 (le_refl _) h3a
  calc fixCheckboxes (fixCheckboxes s)
      = replaceAllGo 91 [88, 93] [0x2611]
          (replaceAllGo 91 [120, 93] [0x2611]
            (replaceAllGo 91 [32, 93] [0x2610] t3)) := by
        rw [hfix (fixCheckboxes s)]
        rw [hfix s]
    _ = t3 := by rw [r1, r2, r3]
    _ = fixCheckboxes s := (hfix s).symm

/-- Well-formedness of a node as the external parser produces it:
heading levels are between 1 and 6 (gomarkdown's ATX/Setext levels). -/
def WFNode : NK → Prop
  | .heading level => 1 ≤ level ∧ level ≤ 6
  | _ => True

theorem enterNode_length (k : NK) (r : Renderer) (hwf : WFNode k) :
    (enterNode k r).cs.length = r.cs.length + 1 := by
  cases k with
  | list kind start tr =>
    simp only [enterNode, processList, Renderer.setStyler, Renderer.cr,
      Renderer.peek, Renderer.push, Canvas.write, Canvas.setLeftMargin, if_true]
    split <;> split <;> split <;> simp
  | item texts =>
    have hupd : ∀ (s : Renderer) g, (Renderer.updTop s g).cs.length = s.cs.length := by
      intro s g
      cases h : s.cs <;> simp [Renderer.updTop, h]
    simp only [enterNode, processItem, if_true, Renderer.push, Renderer.setStyler,
      Renderer.peek, Canvas.write, Canvas.setX, Canvas.setLeftMargin,
      apply_ite Renderer.cs, ite_self, hupd, List.length_cons]
  | heading level =>
    obtain ⟨h1, h6⟩ := hwf
    interval_cases level <;>
      simp [enterNode, processHeading, Renderer.resetListCounter, Renderer.cr,
        Renderer.peek, Renderer.push] <;> split <;> simp
  | link dest =>
    simp only [enterNode, processLink, Renderer.push, Renderer.peek, if_true]
    split <;> simp
  | quote =>
    simp only [enterNode, processBlockQuote, Renderer.resetListCounter,
      Renderer.push, Canvas.setLeftMargin, if_true]
    split <;> simp
  | table id =>
    simp [enterNode, processTable, Renderer.cr, Renderer.push, Renderer.peek,
      Canvas.write]
  | thead =>
    simp [enterNode, processTableHead, Renderer.push, Renderer.peek]
  | tbody =>
    simp [enterNode, processTableBody, Renderer.push, Renderer.peek]
  | trow =>
    simp only [enterNode, processTableRow, Renderer.push, Renderer.peek,
      Canvas.lnBreak, if_true]
    split <;> simp
  | tcell ih =>
    simp only [enterNode, processTableCell, Renderer.push, Renderer.peek,
      Renderer.setStyler, if_true]
    split <;> simp

theorem leaveNode_cs (k : NK) (t : Renderer) : (leaveNode k t).cs = t.cs.tail := by
  cases k with
  | list kind start tr =>
    simp only [leaveNode, processList, Renderer.setStyler, Renderer.cr,
      Renderer.peek, Renderer.pop, Canvas.write, Canvas.setLeftMargin,
      Bool.false_eq_true, if_false]
    split <;> split <;> simp
  | item texts =>
    simp [leaveNode, processItem, Renderer.pop, Renderer.peek, Canvas.setLeftMargin]
  | heading level =>
    simp [leaveNode, processHeading, Renderer.cr, Renderer.pop, Renderer.peek,
      Canvas.write]
  | link dest =>
    simp [leaveNode, processLink, Renderer.pop]
  | quote =>
    simp [leaveNode, processBlockQuote, Renderer.cr, Renderer.pop, Renderer.peek,
      Canvas.setLeftMargin, Canvas.write]
  | table id =>
    simp [leaveNode, processTable, Renderer.cr, Renderer.pop, Renderer.peek,
      Canvas.cellFormat, Canvas.write]
  | thead =>
    simp [leaveNode, processTableHead, Renderer.pop]
  | tbody =>
    simp [leaveNode, processTableBody, Renderer.pop, Canvas.lnBreak]
  | trow =>
    simp [leaveNode, processTableRow, Renderer.pop]
  | tcell ih =>
    simp only [leaveNode, processTableCell, Renderer.pop, Renderer.peek,
      Canvas.cellFormat, Bool.false_eq_true, if_false]
    split <;> simp

/-- A concrete style for witness states. -/
def exStyle : Style := ⟨11, 2, []⟩

/-- A concrete canvas for witness states, with the string-width metric
counting code points. -/
def exCanvas : Canvas :=
  { x := 0, leftMargin := 0, font := exStyle, lineWidth := 0, written := [],
    widthFn := fun s => (s.length : ℚ) }

/-- The root sentinel frame of witness states. -/
def exFrame : ContainerState := { textStyle := exStyle }

/-- A concrete renderer state (root sentinel on the stack). -/
def exRenderer : Renderer :=
  { cs := [exFrame], orderedListCounter := 0, pdf := exCanvas, normal := exStyle,
    h1 := exStyle, h2 := exStyle, h3 := exStyle, h4 := exStyle, h5 := exStyle,
    h6 := exStyle, blockquoteStyle := exStyle, linkStyle := exStyle,
    thStyle := exStyle, tbStyle := exStyle, indentValue := 4, em := 1,
    keepNumbering := false, anchorLinks := false, inputBaseURL := [],
    iconHandling := .keep, needBlockquoteStyleUpdate := false,
    horizontalRuleNewPage := false, incell := false, fill := false,
    cellwidths := [], curdatacell := 0, columnWidths := fun _ => [] }

/-- C1: for every node kind with a container-stack handler, the enter
event pushes exactly one frame, the leave event pops exactly one frame,
the depth after the leave equals the depth immediately before the enter
(`t` is the state reaching the leave, whose depth the subtree traversal
has preserved), and the bottom (root-sentinel) frame is untouched. -/
theorem container_stack_balanced (k : NK) (s t : Renderer)
    (hwf : WFNode k) (hroot : 1 ≤ s.cs.length)
    (hlen : t.cs.length = (enterNode k s).cs.length) :
    (enterNode k s).cs.length = s.cs.length + 1 ∧
    (leaveNode k t).cs.length + 1 = t.cs.length ∧
    (leaveNode k t).cs.length = s.cs.length ∧
    (leaveNode k t).cs.getLast? = t.cs.getLast? := by
  have he := enterNode_length k s hwf
  have hl := leaveNode_cs k t
  have hlen2 : t.cs.length = s.cs.length + 1 := by rw [hlen, he]
  obtain ⟨a, b, l, hcs⟩ : ∃ a b l, t.cs = a :: b :: l := by
    cases hc : t.cs with
    | nil =>
      rw [hc] at hlen2
      exact absurd hlen2 (by simp)
    | cons a rest =>
      cases hb : rest with
      | nil =>
        rw [hc, hb] at hlen2
        simp only [List.length_cons, List.length_nil] at hlen2
        omega
      | cons b l => exact ⟨a, b, l, rfl⟩
  refine ⟨he, ?_, ?_, ?_⟩
  · rw [hl, hcs]
    simp
  · rw [hl, hcs]
    rw [hcs] at hlen2
    simp only [List.length_cons, List.tail_cons] at hlen2 ⊢
    omega
  · rw [hl, hcs]
    simp [List.getLast?_cons_cons]

/-- C1 witness: a block quote entered and left on a concrete state. -/
theorem container_stack_balanced_witness :
    (WFNode NK.quote ∧ 1 ≤ exRenderer.cs.length ∧
      (enterNode NK.quote exRenderer).cs.length =
        (enterNode NK.quote exRenderer).cs.length) ∧
    ((enterNode NK.quote exRenderer).cs.length = exRenderer.cs.length + 1 ∧
      (leaveNode NK.quote (enterNode NK.quote exRenderer)).cs.length + 1 =
        (enterNode NK.quote exRenderer).cs.length ∧
      (leaveNode NK.quote (enterNode NK.quote exRenderer)).cs.length =
        exRenderer.cs.length ∧
      (leaveNode NK.quote (enterNode NK.quote exRenderer)).cs.getLast? =
        (enterNode NK.quote exRenderer).cs.getLast?) :=
  ⟨⟨trivial, by decide, rfl⟩,
    container_stack_balanced NK.quote exRenderer (enterNode NK.quote exRenderer)
      trivial (by decide) rfl⟩

theorem processList_enter_ordered_shape (r : Renderer) (start : Int) (tr : Bool) :
    ∃ L : ℚ,
      (processList r .ordered start tr true).cs =
        ({ textStyle := r.normal,
           itemNumber := (if start ≤ 0 then 1 else start) - 1,
           listkind := .ordered,
           leftMargin := L, contentLeftMargin := L,
           orderedCounterBackup := r.orderedListCounter } : ContainerState) :: r.cs ∧
      (processList r .ordered start tr true).orderedListCounter =
        (if start ≤ 0 then 1 else start) - 1 ∧
      (processList r .ordered start tr true).normal = r.normal := by
  refine ⟨(if (Renderer.peek r).contentLeftMargin = 0 then (Renderer.peek r).leftMargin
            else (Renderer.peek r).contentLeftMargin) + r.indentValue, ?_, ?_, ?_⟩
  · simp only [processList, Renderer.setStyler, Renderer.cr, Renderer.peek,
      Renderer.push, Canvas.write, Canvas.setLeftMargin, if_true]
    split <;> split <;> split <;> simp [Renderer.peek]
  · simp only [processList, Renderer.setStyler, Renderer.cr, Renderer.peek,
      Renderer.push, Canvas.write, Canvas.setLeftMargin, if_true,
      apply_ite Renderer.orderedListCounter, ite_self]
  · simp only [processList, Renderer.setStyler, Renderer.cr, Renderer.peek,
      Renderer.push, Canvas.write, Canvas.setLeftMargin, if_true,
      apply_ite Renderer.normal, ite_self]

theorem processItem_enter_ordered (s : Renderer) (texts : List Str)
    (g : ContainerState) (tail : List ContainerState)
    (hcs : s.cs = g :: tail) (hord : g.listkind = .ordered) :
    (processItem s texts true).orderedListCounter = s.orderedListCounter + 1 ∧
    (processItem s texts true).peek.itemNumber = s.orderedListCounter + 1 := by
  constructor
  · simp only [processItem, if_true, Renderer.push, Renderer.setStyler,
      Renderer.peek, Renderer.updTop, Canvas.write, Canvas.setX,
      Canvas.setLeftMargin, hcs, hord,
      apply_ite Renderer.orderedListCounter, ite_self]
    simp [hcs, hord]
  · simp only [processItem, if_true, Renderer.push, Renderer.setStyler,
      Renderer.peek, Renderer.updTop, Canvas.write, Canvas.setX,
      Canvas.setLeftMargin, hcs, hord,
      apply_ite Renderer.cs, apply_ite Renderer.peek, ite_self]
    simp [hcs, hord, Renderer.peek]

theorem processItem_enter_cs_tail (s : Renderer) (texts : List Str)
    (g : ContainerState) (tail : List ContainerState)
    (hcs : s.cs = g :: tail) (hord : g.listkind = .ordered) :
    (processItem s texts true).cs.tail =
      ({ g with itemNumber := s.orderedListCounter + 1 }) :: tail ∧
    (processItem s texts true).normal = s.normal := by
  constructor
  · simp only [processItem, if_true, Renderer.push, Renderer.setStyler,
      Renderer.peek, Renderer.updTop, Canvas.write, Canvas.setX,
      Canvas.setLeftMargin, hcs, hord,
      apply_ite Renderer.cs, ite_self]
    simp [hcs, hord]
  · simp only [processItem, if_true, Renderer.push, Renderer.setStyler,
      Renderer.peek, Renderer.updTop, Canvas.write, Canvas.setX,
      Canvas.setLeftMargin, hcs, hord,
      apply_ite Renderer.normal, ite_self]

theorem processItem_leave_fields (u : Renderer) (texts : List Str) :
    (processItem u texts false).cs = u.cs.tail ∧
    (processItem u texts false).orderedListCounter = u.orderedListCounter ∧
    (processItem u texts false).normal = u.normal := by
  refine ⟨?_, ?_, ?_⟩ <;>
    simp [processItem, Renderer.pop, Renderer.peek, Canvas.setLeftMargin]

theorem processItem_pair_ordered (s : Renderer) (texts : List Str)
    (g : ContainerState) (tail : List ContainerState)
    (hcs : s.cs = g :: tail) (hord : g.listkind = .ordered) :
    (processItem (processItem s texts true) texts false).cs =
      ({ g with itemNumber := s.orderedListCounter + 1 }) :: tail ∧
    (processItem (processItem s texts true) texts false).orderedListCounter =
      s.orderedListCounter + 1 ∧
    (processItem (processItem s texts true) texts false).normal = s.normal := by
  obtain ⟨htail, hnorm⟩ := processItem_enter_cs_tail s texts g tail hcs hord
  obtain ⟨hcount, _⟩ := processItem_enter_ordered s texts g tail hcs hord
  obtain ⟨hl1, hl2, hl3⟩ := processItem_leave_fields (processItem s texts true) texts
  exact ⟨by rw [hl1, htail], by rw [hl2, hcount], by rw [hl3, hnorm]⟩

theorem processList_leave_ordered (s : Renderer) (kind : ListKind) (start : Int)
    (tr : Bool) (g : ContainerState) (tail : List ContainerState)
    (hcs : s.cs = g :: tail) (hord : g.listkind = .ordered) :
    (processList s kind start tr false).orderedListCounter = g.orderedCounterBackup ∧
    (processList s kind start tr false).cs = tail := by
  constructor
  · simp only [processList, Bool.false_eq_true, if_false, Renderer.setStyler,
      Renderer.peek, Renderer.pop, Renderer.cr, Canvas.write,
      Canvas.setLeftMargin, hcs, hord,
      apply_ite Renderer.orderedListCounter, ite_self]
    simp [hcs, hord]
  · simp only [processList, Bool.false_eq_true, if_false, Renderer.setStyler,
      Renderer.peek, Renderer.pop, Renderer.cr, Canvas.write,
      Canvas.setLeftMargin, hcs, hord,
      apply_ite Renderer.cs, ite_self]
    simp [hcs, hord]

theorem itemPair_iterate (texts : List Str) (g : ContainerState)
    (tail : List ContainerState) (hord : g.listkind = .ordered) :
    ∀ (k : Nat) (s : Renderer),
      s.cs = ({ g with itemNumber := s.orderedListCounter }) :: tail →
      ((fun u => processItem (processItem u texts true) texts false)^[k] s).cs =
        ({ g with itemNumber :=
            ((fun u => processItem (processItem u texts true) texts false)^[k]
              s).orderedListCounter }) :: tail ∧
      ((fun u => processItem (processItem u texts true) texts false)^[k]
          s).orderedListCounter = s.orderedListCounter + k := by
  intro k
  induction k with
  | zero =>
    intro s hs
    refine ⟨by simpa using hs, by simp⟩
  | succ k ihk =>
    intro s hs
    have hpair := processItem_pair_ordered s texts
      ({ g with itemNumber := s.orderedListCounter }) tail hs hord
    have hnext : (processItem (processItem s texts true) texts false).cs =
        ({ g with itemNumber :=
          (processItem (processItem s texts true) texts false).orderedListCounter })
          :: tail := by
      rw [hpair.1, hpair.2.1]
    have hk := ihk (processItem (processItem s texts true) texts false) hnext
    rw [Function.iterate_succ_apply]
    refine ⟨hk.1, ?_⟩
    rw [hk.2, hpair.2.1]
    push_cast
    ring

/-- C2: entering an ordered list nested in an ordered context saves the
current ordered-list counter in the pushed frame's backup field; after
any number of (empty) items of the inner list, leaving the inner list
restores the counter to exactly the saved value, and the next item of
the outer list is numbered one greater than the last outer item before
the nested list. -/
theorem nested_ordered_list_resumes_numbering (r : Renderer) (texts : List Str)
    (start : Int) (tr : Bool) (k : Nat) (f : ContainerState)
    (rest : List ContainerState)
    (hcs : r.cs = f :: rest) (hord : f.listkind = ListKind.ordered) :
    let s1 := processList r .ordered start tr true
    let s2 := (fun u => processItem (processItem u texts true) texts false)^[k] s1
    let s3 := processList s2 .ordered start tr false
    s1.peek.orderedCounterBackup = r.orderedListCounter ∧
    s3.orderedListCounter = r.orderedListCounter ∧
    s3.cs = f :: rest ∧
    (processItem s3 texts true).orderedListCounter = r.orderedListCounter + 1 ∧
    (processItem s3 texts true).peek.itemNumber = r.orderedListCounter + 1 := by
  intro s1 s2 s3
  obtain ⟨L, h1cs, h1cnt, h1norm⟩ := processList_enter_ordered_shape r start tr
  have hbase : (processList r .ordered start tr true).cs =
      ({ textStyle := r.normal,
         itemNumber := (processList r .ordered start tr true).orderedListCounter,
         listkind := .ordered, leftMargin := L, contentLeftMargin := L,
         orderedCounterBackup := r.orderedListCounter } : ContainerState) :: r.cs := by
    rw [h1cs, h1cnt]
  have hiter := itemPair_iterate texts
    ({ textStyle := r.normal, itemNumber := 0, listkind := .ordered,
       leftMargin := L, contentLeftMargin := L,
       orderedCounterBackup := r.orderedListCounter } : ContainerState)
    r.cs rfl k (processList r .ordered start tr true) hbase
  have hleave := processList_leave_ordered
    ((fun u => processItem (processItem u texts true) texts false)^[k]
      (processList r .ordered start tr true)) .ordered start tr
    ({ textStyle := r.normal,
       itemNumber :=
         ((fun u => processItem (processItem u texts true) texts false)^[k]
           (processList r .ordered start tr true)).orderedListCounter,
       listkind := .ordered, leftMargin := L, contentLeftMargin := L,
       orderedCounterBackup := r.orderedListCounter } : ContainerState)
    r.cs hiter.1 rfl
  have hs3cs : s3.cs = f :: rest := by
    rw [show s3.cs =
      (processList ((fun u => processItem (processItem u texts true) texts false)^[k]
        (processList r .ordered start tr true)) .ordered start tr false).cs from rfl,
      hleave.2, hcs]
  have hs3cnt : s3.orderedListCounter = r.orderedListCounter := hleave.1
  have hfinal := processItem_enter_ordered s3 texts f rest hs3cs hord
  refine ⟨?_, hs3cnt, hs3cs, ?_, ?_⟩
  · simp only [Renderer.peek]
    rw [show s1.cs =
      (processList r .ordered start tr true).cs from rfl, h1cs]
    rfl
  · rw [hfinal.1, hs3cnt]
  · rw [hfinal.2, hs3cnt]

/-- An outer ordered-list frame whose last item was numbered 2. -/
def exOrderedFrame : ContainerState :=
  { textStyle := exStyle, listkind := .ordered, itemNumber := 2 }

/-- A concrete renderer inside an ordered list, counter at 2. -/
def exRenderer2 : Renderer :=
  { exRenderer with cs := [exOrderedFrame, exFrame], orderedListCounter := 2 }

/-- C2 witness: a nested ordered list with two items entered and left
inside a concrete outer ordered list whose counter is 2; the next outer
item is numbered 3. -/
theorem nested_ordered_list_resumes_numbering_witness :
    (exRenderer2.cs = exOrderedFrame :: [exFrame] ∧
      exOrderedFrame.listkind = ListKind.ordered) ∧
    (let s1 := processList exRenderer2 .ordered 1 false true
     let s2 := (fun u => processItem (processItem u [] true) [] false)^[2] s1
     let s3 := processList s2 .ordered 1 false false
     s1.peek.orderedCounterBackup = exRenderer2.orderedListCounter ∧
     s3.orderedListCounter = exRenderer2.orderedListCounter ∧
     s3.cs = exOrderedFrame :: [exFrame] ∧
     (processItem s3 [] true).orderedListCounter =
       exRenderer2.orderedListCounter + 1 ∧
     (processItem s3 [] true).peek.itemNumber =
       exRenderer2.orderedListCounter + 1) :=
  ⟨⟨rfl, rfl⟩,
    nested_ordered_list_resumes_numbering exRenderer2 [] 1 false 2 exOrderedFrame
      [exFrame] rfl rfl⟩

theorem checkMarker_sym (lit : Str) (p : Nat × Str)
    (h : checkMarker lit = some p) : p.1 = 0x2610 ∨ p.1 = 0x2611 := by
  simp only [checkMarker] at h
  split at h
  · exact absurd h (by simp)
  · split at h
    · injection h with h1
      rw [← h1]
      exact Or.inl rfl
    · split at h
      · injection h with h1
        rw [← h1]
        exact Or.inr rfl
      · exact absurd h (by simp)

theorem stripCheckboxMarker_vals (texts : List Str) :
    (stripCheckboxMarker texts).1 = none ∨
    (stripCheckboxMarker texts).1 = some 0x2610 ∨
    (stripCheckboxMarker texts).1 = some 0x2611 := by
  induction texts with
  | nil => simp [stripCheckboxMarker]
  | cons lit rest ih =>
    simp only [stripCheckboxMarker]
    cases hcm : checkMarker lit with
    | some p =>
      rcases checkMarker_sym lit p hcm with h | h <;>
        simp [hcm, h]
    | none =>
      simpa [hcm] using ih

theorem resolveBullet_ne_newline (wf : Str → ℚ) (kind : ListKind) (itm : Int)
    (cbox : Option Nat)
    (hc : cbox = none ∨ cbox = some 0x2610 ∨ cbox = some 0x2611) :
    resolveBullet wf kind itm cbox ≠ [10] := by
  have hb0 : bulletLabel0 kind itm cbox ≠ [10] := by
    rcases hc with rfl | rfl | rfl <;>
      cases kind <;>
        simp [bulletLabel0, patUnchecked, patCheckedLower] <;>
          (intro h; exact absurd (congrArg (fun l => l.getLast? ) h) (by simp [intToStr]))
  simp only [resolveBullet]
  split
  · split <;> (split <;> simp [patCheckedLower, patUnchecked])
  · split
    · simp
    · exact hb0

/-- The indentation `processItem` computes for a list item:
`max(measured label width + 0.35 em, 1.2 em)`. -/
def itemIndent (wf : Str → ℚ) (em : ℚ) (kind : ListKind) (itm : Int)
    (cbox : Option Nat) : ℚ :=
  max (wf (resolveBullet wf kind itm cbox) + 7/20 * em) (6/5 * em)

/-- C8: on entering a list item (with a positive base font metric), the
frame's content-left-margin is set to left-margin plus the indentation
`max(measured bullet-label width + 0.35 em, 1.2 em)`, and both the
cursor and the canvas left margin are advanced to that
content-left-margin. -/
theorem processItem_indentation (r : Renderer) (texts : List Str)
    (f : ContainerState) (rest : List ContainerState)
    (hcs : r.cs = f :: rest) (hem : 0 < r.em) :
    (processItem r texts true).peek.contentLeftMargin =
      f.leftMargin + itemIndent r.pdf.widthFn r.em f.listkind
        (if f.listkind = ListKind.ordered then r.orderedListCounter + 1
         else f.itemNumber + 1)
        (if f.listkind = ListKind.unordered then (stripCheckboxMarker texts).1
         else none) ∧
    (processItem r texts true).pdf.leftMargin =
      f.leftMargin + itemIndent r.pdf.widthFn r.em f.listkind
        (if f.listkind = ListKind.ordered then r.orderedListCounter + 1
         else f.itemNumber + 1)
        (if f.listkind = ListKind.unordered then (stripCheckboxMarker texts).1
         else none) ∧
    (processItem r texts true).pdf.x =
      f.leftMargin + itemIndent r.pdf.widthFn r.em f.listkind
        (if f.listkind = ListKind.ordered then r.orderedListCounter + 1
         else f.itemNumber + 1)
        (if f.listkind = ListKind.unordered then (stripCheckboxMarker texts).1
         else none) := by
  have hc : (if f.listkind = ListKind.unordered then (stripCheckboxMarker texts).1
      else none) = none ∨
      (if f.listkind = ListKind.unordered then (stripCheckboxMarker texts).1
        else none) = some 0x2610 ∨
      (if f.listkind = ListKind.unordered then (stripCheckboxMarker texts).1
        else none) = some 0x2611 := by
    by_cases h : f.listkind = ListKind.unordered
    · simp only [h, if_true]
      exact stripCheckboxMarker_vals texts
    · simp [h]
  have hlab := resolveBullet_ne_newline r.pdf.widthFn f.listkind
    (if f.listkind = ListKind.ordered then r.orderedListCounter + 1
     else f.itemNumber + 1)
    (if f.listkind = ListKind.unordered then (stripCheckboxMarker texts).1
     else none) hc
  have hlt : f.leftMargin +
      r.pdf.widthFn (resolveBullet r.pdf.widthFn f.listkind
        (if f.listkind = ListKind.ordered then r.orderedListCounter + 1
         else f.itemNumber + 1)
        (if f.listkind = ListKind.unordered then (stripCheckboxMarker texts).1
         else none)) <
      f.leftMargin +
        max (r.pdf.widthFn (resolveBullet r.pdf.widthFn f.listkind
              (if f.listkind = ListKind.ordered then r.orderedListCounter + 1
               else f.itemNumber + 1)
              (if f.listkind = ListKind.unordered then (stripCheckboxMarker texts).1
               else none)) + 7/20 * r.em)
          (6/5 * r.em) := by
    have h1 := le_max_left
      (r.pdf.widthFn (resolveBullet r.pdf.widthFn f.listkind
          (if f.listkind = ListKind.ordered then r.orderedListCounter + 1
           else f.itemNumber + 1)
          (if f.listkind = ListKind.unordered then (stripCheckboxMarker texts).1
           else none)) + 7/20 * r.em)
      (6/5 * r.em)
    linarith
  refine ⟨?_, ?_, ?_⟩ <;>
    simp only [processItem, itemIndent, if_true, Renderer.push, Renderer.setStyler,
      Renderer.peek, Renderer.updTop, Canvas.write, Canvas.setX,
      Canvas.setLeftMargin, hcs, List.headD_cons, apply_ite Renderer.cs,
      apply_ite Renderer.pdf, apply_ite Renderer.em, ite_self, hlab, hlt,
      if_true, if_false, eq_self_iff_true, not_false_iff]

/-- C8 witness: a concrete unordered item entered on a concrete state
with em = 1 and per-code-point width 1. -/
theorem processItem_indentation_witness :
    (exRenderer.cs = exFrame :: [] ∧ (0 : ℚ) < exRenderer.em) ∧
    ((processItem exRenderer [] true).peek.contentLeftMargin =
      exFrame.leftMargin + itemIndent exRenderer.pdf.widthFn exRenderer.em
        exFrame.listkind
        (if exFrame.listkind = ListKind.ordered then
          exRenderer.orderedListCounter + 1
         else exFrame.itemNumber + 1)
        (if exFrame.listkind = ListKind.unordered then (stripCheckboxMarker []).1
         else none) ∧
    (processItem exRenderer [] true).pdf.leftMargin =
      exFrame.leftMargin + itemIndent exRenderer.pdf.widthFn exRenderer.em
        exFrame.listkind
        (if exFrame.listkind = ListKind.ordered then
          exRenderer.orderedListCounter + 1
         else exFrame.itemNumber + 1)
        (if exFrame.listkind = ListKind.unordered then (stripCheckboxMarker []).1
         else none) ∧
    (processItem exRenderer [] true).pdf.x =
      exFrame.leftMargin + itemIndent exRenderer.pdf.widthFn exRenderer.em
        exFrame.listkind
        (if exFrame.listkind = ListKind.ordered then
          exRenderer.orderedListCounter + 1
         else exFrame.itemNumber + 1)
        (if exFrame.listkind = ListKind.unordered then (stripCheckboxMarker []).1
         else none)) :=
  ⟨⟨rfl, by decide⟩,
    processItem_indentation exRenderer [] exFrame [] rfl (by decide)⟩

theorem bulletLabel0_ne_nil (kind : ListKind) (itm : Int) (cbox : Option Nat) :
    bulletLabel0 kind itm cbox ≠ [] := by
  simp only [bulletLabel0]
  split
  · simp
  · assumption

/-- C9: the bullet-label fallback chain of `processItem`: a zero-width
checkbox glyph is replaced by the corresponding ASCII checkbox text
(`"[x]"` when checked, `"[ ]"` when unchecked); if the width is still
zero (or the label was not a checkbox), the plain dash `"-"` is used; a
nonzero-width label is kept; the resolved label is never empty and the
item's enter event always draws it (after the item line feed). -/
theorem bullet_fallback_chain (r : Renderer) (texts : List Str)
    (f : ContainerState) (rest : List ContainerState)
    (hcs : r.cs = f :: rest) :
    resolveBullet r.pdf.widthFn f.listkind
      (if f.listkind = ListKind.ordered then r.orderedListCounter + 1
       else f.itemNumber + 1)
      (if f.listkind = ListKind.unordered then (stripCheckboxMarker texts).1
       else none) ≠ [] ∧
    (∀ (kind : ListKind) (itm : Int) (cbox : Option Nat),
      (r.pdf.widthFn (bulletLabel0 kind itm cbox) = 0 → cbox ≠ none →
        resolveBullet r.pdf.widthFn kind itm cbox =
          (if r.pdf.widthFn
                (if cbox = some 0x2611 then patCheckedLower else patUnchecked) = 0
           then [45]
           else if cbox = some 0x2611 then patCheckedLower else patUnchecked)) ∧
      (r.pdf.widthFn (bulletLabel0 kind itm cbox) = 0 → cbox = none →
        resolveBullet r.pdf.widthFn kind itm cbox = [45]) ∧
      (r.pdf.widthFn (bulletLabel0 kind itm cbox) ≠ 0 →
        resolveBullet r.pdf.widthFn kind itm cbox = bulletLabel0 kind itm cbox)) ∧
    (processItem r texts true).pdf.written =
      r.pdf.written ++
        [(r.normal.size - 2, [10]),
         (r.normal.size + 6/5,
          resolveBullet r.pdf.widthFn f.listkind
            (if f.listkind = ListKind.ordered then r.orderedListCounter + 1
             else f.itemNumber + 1)
            (if f.listkind = ListKind.unordered then (stripCheckboxMarker texts).1
             else none))] := by
  have hnil : ∀ (wf : Str → ℚ) (kind : ListKind) (itm : Int) (cbox : Option Nat),
      resolveBullet wf kind itm cbox ≠ [] := by
    intro wf kind itm cbox
    simp only [resolveBullet]
    split
    · split <;> (split <;> simp [patCheckedLower, patUnchecked])
    · split
      · simp
      · exact bulletLabel0_ne_nil _ _ _
  refine ⟨hnil _ _ _ _, ?_, ?_⟩
  · intro kind itm cbox
    refine ⟨?_, ?_, ?_⟩
    · intro h0 hnn
      simp only [resolveBullet, if_pos (And.intro h0 hnn)]
    · intro h0 hnone
      subst hnone
      simp [resolveBullet, h0]
    · intro hne
      have hcond : ¬ (r.pdf.widthFn (bulletLabel0 kind itm cbox) = 0 ∧ cbox ≠ none) := by
        intro hcontra
        exact hne hcontra.1
      simp only [resolveBullet, if_neg hcond, if_neg hne]
  · simp only [processItem, if_true, Renderer.push, Renderer.setStyler,
      Renderer.peek, Renderer.updTop, Canvas.write, Canvas.setX,
      Canvas.setLeftMargin, hcs, List.headD_cons, apply_ite Renderer.cs,
      apply_ite Renderer.pdf, apply_ite Renderer.em, apply_ite Renderer.normal,
      apply_ite Canvas.written, ite_self, eq_self_iff_true]
    simp

/-- C9 witness: the fallback chain instantiated on a concrete state. -/
theorem bullet_fallback_chain_witness :
    (exRenderer.cs = exFrame :: []) ∧
    (resolveBullet exRenderer.pdf.widthFn exFrame.listkind
      (if exFrame.listkind = ListKind.ordered then
        exRenderer.orderedListCounter + 1
       else exFrame.itemNumber + 1)
      (if exFrame.listkind = ListKind.unordered then (stripCheckboxMarker []).1
       else none) ≠ [] ∧
    (∀ (kind : ListKind) (itm : Int) (cbox : Option Nat),
      (exRenderer.pdf.widthFn (bulletLabel0 kind itm cbox) = 0 → cbox ≠ none →
        resolveBullet exRenderer.pdf.widthFn kind itm cbox =
          (if exRenderer.pdf.widthFn
                (if cbox = some 0x2611 then patCheckedLower else patUnchecked) = 0
           then [45]
           else if cbox = some 0x2611 then patCheckedLower else patUnchecked)) ∧
      (exRenderer.pdf.widthFn (bulletLabel0 kind itm cbox) = 0 → cbox = none →
        resolveBullet exRenderer.pdf.widthFn kind itm cbox = [45]) ∧
      (exRenderer.pdf.widthFn (bulletLabel0 kind itm cbox) ≠ 0 →
        resolveBullet exRenderer.pdf.widthFn kind itm cbox =
          bulletLabel0 kind itm cbox)) ∧
    (processItem exRenderer [] true).pdf.written =
      exRenderer.pdf.written ++
        [(exRenderer.normal.size - 2, [10]),
         (exRenderer.normal.size + 6/5,
          resolveBullet exRenderer.pdf.widthFn exFrame.listkind
            (if exFrame.listkind = ListKind.ordered then
              exRenderer.orderedListCounter + 1
             else exFrame.itemNumber + 1)
            (if exFrame.listkind = ListKind.unordered then
              (stripCheckboxMarker []).1
             else none))]) :=
  ⟨rfl, bullet_fallback_chain exRenderer [] exFrame [] rfl⟩

/-- C10: while cell buffering is active, `processText` appends the
text — after newline folding and checkbox substitution only — to the
top frame's cell buffer, records the current style, and returns: the
resulting state differs from the input state only in those two fields
of the top frame and in the canvas font selected by `setStyler`; in
particular no canvas text draw occurs, the cursor and margins are
untouched, no other frame changes, and neither `handleIcons` nor
`sanitizeText` touches the buffered text. -/
theorem processText_incell (r : Renderer) (parent : ParentKind) (lit : Str)
    (f : ContainerState) (rest : List ContainerState)
    (hcs : r.cs = f :: rest) (hincell : r.incell = true) :
    processText r parent lit =
      { r with
        cs := { f with
          cellInnerString := f.cellInnerString ++
            fixCheckboxes
              (if !r.needBlockquoteStyleUpdate then foldNewlines lit else lit),
          cellInnerStringStyle := some f.textStyle } :: rest,
        pdf := { r.pdf with font := f.textStyle } } := by
  simp only [processText, Renderer.setStyler, Renderer.updTop, Renderer.peek,
    hcs, hincell, List.headD_cons, if_true]

/-- C10 witness: a concrete text node buffered into an open cell. -/
theorem processText_incell_witness :
    ({ exRenderer with incell := true } : Renderer).cs = exFrame :: [] ∧
    ({ exRenderer with incell := true } : Renderer).incell = true ∧
    processText { exRenderer with incell := true } .other (ofString "a[x]b") =
      { ({ exRenderer with incell := true } : Renderer) with
        cs := { exFrame with
          cellInnerString := exFrame.cellInnerString ++
            fixCheckboxes
              (if !({ exRenderer with incell := true } :
                    Renderer).needBlockquoteStyleUpdate then
                foldNewlines (ofString "a[x]b")
               else ofString "a[x]b"),
          cellInnerStringStyle := some exFrame.textStyle } :: [],
        pdf := { ({ exRenderer with incell := true } : Renderer).pdf with
          font := exFrame.textStyle } } :=
  ⟨rfl, rfl,
    processText_incell { exRenderer with incell := true } .other
      (ofString "a[x]b") exFrame [] rfl rfl⟩
